import Mathlib

/-!
Verification development for the pitch-perfect-practice server (`server.js`).

The file shallowly embeds the components the specification talks about:
the Filter Planner inside `processAudioWithFFmpeg` (pitch filter and
`atempo` decomposition loops), the request validation and control flow of
`GET /api/video-info/:videoId` and `POST /api/process-audio`, and the
periodic temp-file sweep `cleanupTempFiles`.  JavaScript numbers are
modelled by exact rationals (the divisions by `2` and by `0.5` performed
by the source are exact in binary floating point as well), external
collaborators (ytdl, ffmpeg, the filesystem, timers) are modelled by
explicit oracle values describing their outcome, and each handler returns
the observable effects the claims mention: status codes sent, external
calls made, temp files created, and temp files still on disk once the
post-stream grace delay has elapsed.
-/

/-! ## Small string helpers (JS `String.prototype.includes`, id regex) -/

/-- Substring test, modelling JS `hay.includes(needle)` for the nonempty
needles used by the source (`'Video unavailable'`, `'timeout'`):
`String.splitOn` produces more than one piece exactly when the needle
occurs in the haystack. -/
def strContains (hay needle : String) : Bool :=
  (hay.splitOn needle).length != 1

/-- The id check of both endpoints: `/^[a-zA-Z0-9_-]{11}$/.test(videoId)`
(the source also rejects a falsy `videoId` first, which the empty string —
the only falsy string — fails here as well via the length test). -/
def validVideoId (s : String) : Bool :=
  s.length = 11 && s.toList.all fun c => c.isAlphanum || c = '_' || c = '-'

/-! ## JavaScript values and loose numeric comparison

`req.body` fields are arbitrary JSON values; the source compares them to
numeric literals with `<` / `>`, which coerces the value to a number and
yields `false` whenever that coercion produces `NaN`. -/

/-- A JSON body value as far as the validation code can observe it:
a number or a string. -/
inductive JsVal where
  | num (q : ℚ)
  | str (s : String)
deriving DecidableEq, Repr

/-- Numeric coercion of a string, for the fragment of JS `Number(...)`
exercised here: an empty string is `0`, an optionally `-`-signed string
of decimal digits is that integer, and anything else (such as `'loud'`)
is `NaN`, modelled as `none`. -/
def jsStringToNum (s : String) : Option ℚ :=
  match s.toList with
  | [] => some 0
  | '-' :: cs =>
      if cs ≠ [] ∧ cs.all Char.isDigit then
        some (-(cs.foldl (fun n c => 10 * n + (c.toNat - 48)) 0 : ℕ))
      else none
  | cs =>
      if cs.all Char.isDigit then
        some ((cs.foldl (fun n c => 10 * n + (c.toNat - 48)) 0 : ℕ))
      else none

/-- Numeric coercion of a body value (`ToNumber`): numbers are themselves,
strings go through `jsStringToNum`. -/
def jsToNum : JsVal → Option ℚ
  | .num q => some q
  | .str s => jsStringToNum s

/-- JS `v < c` for a body value `v` and a numeric literal `c`:
`false` when the coercion of `v` is `NaN`. -/
def jsLtQ (v : JsVal) (c : ℚ) : Bool :=
  match jsToNum v with
  | some x => decide (x < c)
  | none => false

/-- JS `v > c` for a body value `v` and a numeric literal `c`:
`false` when the coercion of `v` is `NaN`. -/
def jsGtQ (v : JsVal) (c : ℚ) : Bool :=
  match jsToNum v with
  | some x => decide (c < x)
  | none => false

/-! ## Exact carrier for the pitch ratio `2^(pitchShift/12)`

The source computes `Math.pow(2, pitchShift / 12)`, an irrational number
for most semitone counts.  We carry it exactly as an element of the
commutative ring `ℚ[x]/(x^12 - 2)`, represented by its 12 coefficients,
where `x` stands for the positive twelfth root of 2. -/

/-- Coefficient vector of an element of `ℚ[x]/(x^12 - 2)`. -/
abbrev R12 := Fin 12 → ℚ

/-- The monomial `c * x^j` of the ring. -/
def r12Mono (c : ℚ) (j : Fin 12) : R12 := fun i => if i = j then c else 0

/-- The constant (rational) element `c` of the ring. -/
def R12.ofRat (c : ℚ) : R12 := r12Mono c 0

/-- Multiplication in `ℚ[x]/(x^12 - 2)`: coefficient `k` of `f * g`
collects `f i * g j` over `i + j ≡ k (mod 12)`, with an extra factor 2
whenever `i + j` wraps past 12 (the reduction `x^12 = 2`). -/
def r12Mul (f g : R12) : R12 :=
  fun k => ∑ i : Fin 12, f i * g (k - i) * (if (i : ℕ) ≤ (k : ℕ) then 1 else 2)

/-- Iterated `r12Mul` power. -/
def r12Pow (f : R12) : ℕ → R12
  | 0 => R12.ofRat 1
  | n + 1 => r12Mul f (r12Pow f n)

/-- The exact value `2^(p/12)` in `ℚ[x]/(x^12 - 2)`: writing
`p = 12 * q + r` by Euclidean division with `0 ≤ r < 12`, this is the
monomial `2^q * x^r`. -/
def pow2div12 (p : ℤ) : R12 :=
  r12Mono ((2 : ℚ) ^ (p / 12)) ⟨(p % 12).toNat, by omega⟩

/-! ## The Filter Planner (`processAudioWithFFmpeg`, filter construction)

The source builds an `audioFilters` array: if `pitchShift !== 0` it pushes
one ``asetrate=44100*${pitchRatio},aresample=44100`` entry, and if
`playbackSpeed !== 1` it runs two loops — `while (speed > 2)` pushing
`atempo=2` and halving `speed`, then `while (speed < 0.5)` pushing
`atempo=0.5` and dividing `speed` by `0.5` — before pushing a final
``atempo=${speed}`` when the remaining `speed !== 1`. -/

/-- One entry of the source's `audioFilters` array: either the
resample-based pitch filter ``asetrate=baseRate*ratio,aresample=baseRate``
or a tempo step ``atempo=factor``. -/
inductive AudioFilter where
  | asetrateResample (baseRate : ℕ) (ratio : R12)
  | atempo (factor : ℚ)
deriving DecidableEq

/-- Recognizer for the pitch filter entry. -/
def isPitchFilter : AudioFilter → Bool
  | .asetrateResample _ _ => true
  | .atempo _ => false

/-- The source's first tempo loop, `while (speed > 2) { push 'atempo=2';
speed /= 2; }`, returning the pushed factors and the final `speed`. -/
def tempoLoopHi (s : ℚ) : List ℚ × ℚ :=
  if h : 2 < s then (2 :: (tempoLoopHi (s / 2)).1, (tempoLoopHi (s / 2)).2)
  else ([], s)
termination_by (⌈s⌉).toNat
decreasing_by
  all_goals
    have h1 : ⌈s / 2⌉ ≤ ⌈s - ((1 : ℤ) : ℚ)⌉ := Int.ceil_mono (by push_cast; linarith)
    rw [Int.ceil_sub_int] at h1
    have h2 : (0 : ℚ) < s / 2 := by linarith
    have h3 : 0 < ⌈s / 2⌉ := Int.ceil_pos.mpr h2
    omega

/-- The source's second tempo loop, `while (speed < 0.5) { push
'atempo=0.5'; speed /= 0.5; }`, returning the pushed factors and the
final `speed`.  For `speed ≤ 0` the source's loop never terminates, so
the guard here additionally requires `0 < s`; the definition agrees with
the source wherever the source terminates, and every claim about it
concerns positive speeds. -/
def tempoLoopLo (s : ℚ) : List ℚ × ℚ :=
  if h : 0 < s ∧ s < 1 / 2 then
    ((1 / 2 : ℚ) :: (tempoLoopLo (s / (1 / 2))).1, (tempoLoopLo (s / (1 / 2))).2)
  else ([], s)
termination_by (⌈1 / s⌉).toNat
decreasing_by
  all_goals
    have hs : (0 : ℚ) < s := h.1
    have h2 : (2 : ℚ) < 1 / s := by
      rw [lt_div_iff₀ hs]; linarith [h.2]
    have h1 : ⌈(1 / s) / 2⌉ ≤ ⌈(1 / s) - ((1 : ℤ) : ℚ)⌉ :=
      Int.ceil_mono (by push_cast; linarith)
    rw [Int.ceil_sub_int] at h1
    have h3 : (0 : ℚ) < (1 / s) / 2 := by positivity
    have h4 : 0 < ⌈(1 / s) / 2⌉ := Int.ceil_pos.mpr h3
    have h5 : (1 / s) / 2 = 1 / (s / (1 / 2)) := by
      field_simp
    rw [h5] at h1 h4
    omega

/-- The tempo part of the planner, exactly as in the source: nothing when
`playbackSpeed` is 1, otherwise the two loops in sequence followed by the
final step at the leftover ratio when it is not 1. -/
def tempoChain (playbackSpeed : ℚ) : List ℚ :=
  if playbackSpeed ≠ 1 then
    (tempoLoopHi playbackSpeed).1
      ++ (tempoLoopLo (tempoLoopHi playbackSpeed).2).1
      ++ (if (tempoLoopLo (tempoLoopHi playbackSpeed).2).2 ≠ 1 then
            [(tempoLoopLo (tempoLoopHi playbackSpeed).2).2]
          else [])
  else []

/-- Modelled from the spec's words (§4.1), for comparison with
`tempoChain`: a single recursion that, as long as the running ratio is
greater than 2, appends a ×2 step and divides by 2; as long as it is less
than 0.5, appends a ×0.5 step and divides by 0.5; and once the ratio lies
in [0.5, 2.0], appends one final step at that exact ratio unless it is 1.
The positivity guard on the ×0.5 branch mirrors `tempoLoopLo`. -/
def specDecompose (r : ℚ) : List ℚ :=
  if h2 : 2 < r then 2 :: specDecompose (r / 2)
  else if h0 : 0 < r ∧ r < 1 / 2 then (1 / 2 : ℚ) :: specDecompose (r / (1 / 2))
  else if r ≠ 1 then [r] else []
termination_by (⌈r⌉).toNat + (⌈1 / r⌉).toNat
decreasing_by
  · have h1 : ⌈r / 2⌉ ≤ ⌈r - ((1 : ℤ) : ℚ)⌉ := Int.ceil_mono (by push_cast; linarith)
    rw [Int.ceil_sub_int] at h1
    have hpos : (0 : ℚ) < r / 2 := by linarith
    have h3 : 0 < ⌈r / 2⌉ := Int.ceil_pos.mpr hpos
    have hinv : (0 : ℚ) < 1 / (r / 2) := by positivity
    have hinv2 : 1 / (r / 2) ≤ 1 := by
      rw [div_le_one (by positivity)]; linarith
    have h4 : 0 < ⌈1 / (r / 2)⌉ := Int.ceil_pos.mpr hinv
    have h5 : ⌈1 / (r / 2)⌉ ≤ 1 := by
      rw [Int.ceil_le]; push_cast; linarith
    have h6 : 0 < ⌈1 / r⌉ := Int.ceil_pos.mpr (by positivity : (0:ℚ) < 1 / r)
    omega
  · have hs : (0 : ℚ) < r := h0.1
    have hlt : (2 : ℚ) < 1 / r := by
      rw [lt_div_iff₀ hs]; linarith [h0.2]
    have h1 : ⌈(1 / r) / 2⌉ ≤ ⌈(1 / r) - ((1 : ℤ) : ℚ)⌉ :=
      Int.ceil_mono (by push_cast; linarith)
    rw [Int.ceil_sub_int] at h1
    have h3 : 0 < ⌈(1 / r) / 2⌉ := Int.ceil_pos.mpr (by positivity)
    have h5 : (1 / r) / 2 = 1 / (r / (1 / 2)) := by field_simp
    rw [h5] at h1 h3
    have hrr : r / (1 / 2) = 2 * r := by field_simp; ring
    have hc1 : ⌈r⌉ ≤ 1 := by rw [Int.ceil_le]; push_cast; linarith
    have hc2 : 0 < ⌈r⌉ := Int.ceil_pos.mpr hs
    have hc3 : ⌈r / (1 / 2)⌉ ≤ 1 := by
      rw [Int.ceil_le]; push_cast; rw [hrr]; linarith [h0.2]
    have hc4 : 0 < ⌈r / (1 / 2)⌉ := by
      apply Int.ceil_pos.mpr; rw [hrr]; positivity
    omega

/-- The spec's tempo section as a whole: decomposition applies only when
the requested speed is not 1 (§4.1, "If speed ≠ 1"). -/
def specTempoChain (r : ℚ) : List ℚ :=
  if r ≠ 1 then specDecompose r else []

/-- The full filter chain built by `processAudioWithFFmpeg`: the pitch
entry (pushed first, when `pitchShift !== 0`) followed by the tempo
steps, in the order the source pushes them. -/
def audioFilters (pitchShift : ℤ) (playbackSpeed : ℚ) : List AudioFilter :=
  (if pitchShift ≠ 0 then
     [AudioFilter.asetrateResample 44100 (pow2div12 pitchShift)]
   else [])
  ++ (tempoChain playbackSpeed).map AudioFilter.atempo

/-! ## The Temp-File Reaper (`cleanupTempFiles`) -/

/-- A temp-directory entry: a name and a last-modified timestamp
(milliseconds). -/
structure TempFile where
  name : String
  mtime : ℤ
deriving DecidableEq, Repr

/-- Directory contents surviving one run of `cleanupTempFiles` at time
`now`: the sweep deletes every file whose age `now - mtime` exceeds
900000 ms (15 minutes) and keeps the rest. -/
def sweepSurvivors (now : ℤ) (dir : List TempFile) : List TempFile :=
  dir.filter fun f => !(decide (900000 < now - f.mtime))

/-- The files one run of `cleanupTempFiles` at time `now` deletes. -/
def sweepDeleted (now : ℤ) (dir : List TempFile) : List TempFile :=
  dir.filter fun f => decide (900000 < now - f.mtime)

/-! ## The HTTP handlers

External collaborators are oracles: an `InfoOutcome` is what
`ytdl.getInfo` produced, a `PAOracle` fixes the session id (`uuidv4`),
the outcomes of `downloadYouTubeAudio` and `processAudioWithFFmpeg`, the
outcome of streaming the output file, and whether the 25-second
whole-request deadline fired while no response had been sent yet. -/

/-- An external call the handlers can make. -/
inductive ExtCall where
  | getInfo
  | fetchAudio
  | runFFmpeg
deriving DecidableEq, Repr

/-- Status mapping shared by both catch blocks of the source: a message
containing `'Video unavailable'` maps to 404, one containing `'timeout'`
maps to 408, anything else to 500. -/
def classifyCaughtErr (msg : String) : ℕ :=
  if strContains msg "Video unavailable" then 404
  else if strContains msg "timeout" then 408
  else 500

/-- Result of the `ytdl.getInfo` call raced against the 15-second info
timeout: the video details (of which the handler uses
`lengthSeconds`), or a thrown error with its message. -/
inductive InfoOutcome where
  | ok (lengthSeconds : ℤ)
  | err (msg : String)
deriving DecidableEq, Repr

/-- Observable outcome of `GET /api/video-info/:videoId`: the status code
sent and the external calls made, in order. -/
structure InfoResponse where
  status : ℕ
  calls : List ExtCall
deriving DecidableEq, Repr

/-- The `GET /api/video-info/:videoId` handler: reject a malformed id
with 400 before any external call; otherwise call `ytdl.getInfo` and
either reject a duration above 600 seconds with 400, answer 200, or map
a thrown error through the catch block. -/
def videoInfoHandler (videoId : String) (remote : InfoOutcome) : InfoResponse :=
  if !(validVideoId videoId) then ⟨400, []⟩
  else
    match remote with
    | .ok len => if 600 < len then ⟨400, [.getInfo]⟩ else ⟨200, [.getInfo]⟩
    | .err m => ⟨classifyCaughtErr m, [.getInfo]⟩

/-- Outcome of `downloadYouTubeAudio`: success (the input file was
written), or a rejection carrying the error message and whether a
partially written input file is on disk. -/
inductive FetchOutcome where
  | ok
  | err (msg : String) (filePresent : Bool)
deriving DecidableEq, Repr

/-- Outcome of `processAudioWithFFmpeg`: success (the output file is
complete), or a rejection carrying the error message and whether a
partial output file is on disk. -/
inductive TransformOutcome where
  | ok
  | err (msg : String) (outFilePresent : Bool)
deriving DecidableEq, Repr

/-- Outcome of streaming the output file to the client: the read stream
emitted `'end'`, or it emitted an error mid-stream. -/
inductive StreamOutcome where
  | ended
  | errored
deriving DecidableEq, Repr

/-- Everything outside the handler's own control: the fresh session id,
the two adapter outcomes, the stream outcome, and whether the 25-second
whole-request deadline fired at a moment when no response had been sent
(its callback is a no-op otherwise, and `clearTimeout` prevents any
later firing). -/
structure PAOracle where
  sessionId : String
  fetch : FetchOutcome
  transform : TransformOutcome
  stream : StreamOutcome
  deadlineFired : Bool
deriving DecidableEq, Repr

/-- Observable outcome of `POST /api/process-audio`: every status code
sent (in order), the external calls made, every temp file the request
ever created, and the temp files still on disk once the 5-second
post-stream grace delay has elapsed. -/
structure PAResult where
  responses : List ℕ
  calls : List ExtCall
  filesCreated : List String
  diskAfterGrace : List String
deriving DecidableEq, Repr

/-- The input path `path.join(tempDir, sessionId + '_input.webm')`. -/
def inputPathOf (sid : String) : String := "temp/" ++ sid ++ "_input.webm"

/-- The output path `path.join(tempDir, sessionId + '_output.mp3')`. -/
def outputPathOf (sid : String) : String := "temp/" ++ sid ++ "_output.mp3"

/-- The `POST /api/process-audio` handler.  Validation happens before the
session id, the file paths, the deadline timer and any external call
exist; a failed await lands in the catch block, which deletes whichever
temp files exist and answers through `classifyCaughtErr` unless a
response (the deadline's 408) was already sent; on success, if the
deadline fired first the `res.setHeader` call throws into the same catch
block (deleting both files, answering nothing), and otherwise the output
is streamed, with deletion of both files scheduled after the grace delay
only by the stream's `'end'` handler — a mid-stream error schedules
nothing. -/
def runProcessAudio (videoId : String) (pitchShift playbackSpeed : JsVal)
    (o : PAOracle) : PAResult :=
  if !(validVideoId videoId) then ⟨[400], [], [], []⟩
  else if jsLtQ pitchShift (-12) || jsGtQ pitchShift 12 then ⟨[400], [], [], []⟩
  else if jsLtQ playbackSpeed 0.25 || jsGtQ playbackSpeed 2 then ⟨[400], [], [], []⟩
  else
    match o.fetch with
    | .err m present =>
        { responses := if o.deadlineFired then [408] else [classifyCaughtErr m]
          calls := [.fetchAudio]
          filesCreated := if present then [inputPathOf o.sessionId] else []
          diskAfterGrace := [] }
    | .ok =>
      match o.transform with
      | .err m outPresent =>
          { responses := if o.deadlineFired then [408] else [classifyCaughtErr m]
            calls := [.fetchAudio, .runFFmpeg]
            filesCreated :=
              inputPathOf o.sessionId ::
                (if outPresent then [outputPathOf o.sessionId] else [])
            diskAfterGrace := [] }
      | .ok =>
          if o.deadlineFired then
            { responses := [408]
              calls := [.fetchAudio, .runFFmpeg]
              filesCreated := [inputPathOf o.sessionId, outputPathOf o.sessionId]
              diskAfterGrace := [] }
          else
            match o.stream with
            | .ended =>
                { responses := [200]
                  calls := [.fetchAudio, .runFFmpeg]
                  filesCreated := [inputPathOf o.sessionId, outputPathOf o.sessionId]
                  diskAfterGrace := [] }
            | .errored =>
                { responses := [200]
                  calls := [.fetchAudio, .runFFmpeg]
                  filesCreated := [inputPathOf o.sessionId, outputPathOf o.sessionId]
                  diskAfterGrace :=
                    [inputPathOf o.sessionId, outputPathOf o.sessionId] }

/-- The conjunction of the three validation checks of
`POST /api/process-audio`. -/
def paValidationPasses (vid : String) (p s : JsVal) : Bool :=
  validVideoId vid
    && !(jsLtQ p (-12) || jsGtQ p 12)
    && !(jsLtQ s 0.25 || jsGtQ s 2)

/-! ## Lemmas about the tempo loops -/

/-- The first loop's factors multiplied by its leftover speed recover the
input speed. -/
theorem tempoLoopHi_prod (s : ℚ) : (tempoLoopHi s).1.prod * (tempoLoopHi s).2 = s := by
  induction s using tempoLoopHi.induct with
  | case1 s h ih =>
    rw [tempoLoopHi, dif_pos h]
    simp only [List.prod_cons]
    rw [mul_assoc, ih]
    ring
  | case2 s h =>
    rw [tempoLoopHi, dif_neg h]
    simp

/-- Every factor the first loop pushes is 2. -/
theorem tempoLoopHi_mem (s : ℚ) : ∀ f ∈ (tempoLoopHi s).1, f = 2 := by
  induction s using tempoLoopHi.induct with
  | case1 s h ih =>
    rw [tempoLoopHi, dif_pos h]
    intro f hf
    rcases List.mem_cons.mp hf with h' | h'
    · exact h'
    · exact ih f h'
  | case2 s h =>
    rw [tempoLoopHi, dif_neg h]
    simp

/-- The first loop exits with speed at most 2. -/
theorem tempoLoopHi_snd_le (s : ℚ) : (tempoLoopHi s).2 ≤ 2 := by
  induction s using tempoLoopHi.induct with
  | case1 s h ih => rw [tempoLoopHi, dif_pos h]; exact ih
  | case2 s h => rw [tempoLoopHi, dif_neg h]; exact le_of_not_lt h

/-- The first loop keeps a positive speed positive. -/
theorem tempoLoopHi_snd_pos (s : ℚ) : 0 < s → 0 < (tempoLoopHi s).2 := by
  induction s using tempoLoopHi.induct with
  | case1 s h ih =>
    intro hs
    rw [tempoLoopHi, dif_pos h]
    exact ih (by linarith)
  | case2 s h =>
    intro hs
    rw [tempoLoopHi, dif_neg h]
    exact hs

/-- The second loop's factors multiplied by its leftover speed recover the
input speed. -/
theorem tempoLoopLo_prod (s : ℚ) : (tempoLoopLo s).1.prod * (tempoLoopLo s).2 = s := by
  induction s using tempoLoopLo.induct with
  | case1 s h ih =>
    rw [tempoLoopLo, dif_pos h]
    simp only [List.prod_cons]
    rw [mul_assoc, ih]
    ring
  | case2 s h =>
    rw [tempoLoopLo, dif_neg h]
    simp

/-- Every factor the second loop pushes is 0.5. -/
theorem tempoLoopLo_mem (s : ℚ) : ∀ f ∈ (tempoLoopLo s).1, f = 1 / 2 := by
  induction s using tempoLoopLo.induct with
  | case1 s h ih =>
    rw [tempoLoopLo, dif_pos h]
    intro f hf
    rcases List.mem_cons.mp hf with h' | h'
    · exact h'
    · exact ih f h'
  | case2 s h =>
    rw [tempoLoopLo, dif_neg h]
    simp

/-- Starting from a positive speed, the second loop exits at or above
0.5 — dividing by 0.5 doubles the running speed, moving it up into
[0.5, 1). -/
theorem tempoLoopLo_snd_lb (s : ℚ) : 0 < s → 1 / 2 ≤ (tempoLoopLo s).2 := by
  induction s using tempoLoopLo.induct with
  | case1 s h ih =>
    intro hs
    rw [tempoLoopLo, dif_pos h]
    refine ih ?_
    have : s / (1 / 2) = 2 * s := by ring
    rw [this]
    linarith
  | case2 s h =>
    intro hs
    rw [tempoLoopLo, dif_neg h]
    push_neg at h
    exact le_of_not_lt (by simpa using h hs)

/-- Starting from a positive speed, the second loop exits at or below
`max s 1`. -/
theorem tempoLoopLo_snd_ub (s : ℚ) : 0 < s → (tempoLoopLo s).2 ≤ max s 1 := by
  induction s using tempoLoopLo.induct with
  | case1 s h ih =>
    intro hs
    rw [tempoLoopLo, dif_pos h]
    have h2 : s / (1 / 2) = 2 * s := by ring
    have hrec : (tempoLoopLo (s / (1 / 2))).2 ≤ max (s / (1 / 2)) 1 :=
      ih (by rw [h2]; linarith)
    have hle : max (s / (1 / 2)) 1 ≤ max s 1 := by
      apply max_le
      · rw [h2]
        have : 2 * s ≤ 1 := by linarith [h.2]
        exact le_trans this (le_max_right s 1)
      · exact le_max_right s 1
    exact le_trans hrec hle
  | case2 s h =>
    intro hs
    rw [tempoLoopLo, dif_neg h]
    exact le_max_left s 1

/-- Every factor of the tempo chain lies in [0.5, 2]. -/
theorem tempoChain_factors (s : ℚ) (hs : 0 < s) :
    ∀ f ∈ tempoChain s, 1 / 2 ≤ f ∧ f ≤ 2 := by
  intro f hf
  by_cases h1 : s = 1
  · subst h1
    simp [tempoChain] at hf
  · rw [tempoChain, if_pos h1] at hf
    have hpos2 : 0 < (tempoLoopHi s).2 := tempoLoopHi_snd_pos s hs
    rcases List.mem_append.mp hf with hf' | hf'
    · rcases List.mem_append.mp hf' with hh | hl
      · rw [tempoLoopHi_mem s f hh]
        norm_num
      · rw [tempoLoopLo_mem _ f hl]
        norm_num
    · have hlb : 1 / 2 ≤ (tempoLoopLo (tempoLoopHi s).2).2 :=
        tempoLoopLo_snd_lb _ hpos2
      have hub : (tempoLoopLo (tempoLoopHi s).2).2 ≤ 2 := by
        refine le_trans (tempoLoopLo_snd_ub _ hpos2) ?_
        exact max_le (tempoLoopHi_snd_le s) (by norm_num)
      by_cases hne : (tempoLoopLo (tempoLoopHi s).2).2 ≠ 1
      · rw [if_pos hne] at hf'
        rcases List.mem_singleton.mp hf' with rfl
        exact ⟨hlb, hub⟩
      · rw [if_neg hne] at hf'
        simp at hf'

/-- The product of the tempo chain is exactly the requested speed. -/
theorem tempoChain_prod (s : ℚ) (hs : 0 < s) : (tempoChain s).prod = s := by
  by_cases h1 : s = 1
  · subst h1
    simp [tempoChain]
  · rw [tempoChain, if_pos h1]
    rw [List.prod_append, List.prod_append]
    have key : (tempoLoopHi s).1.prod
        * ((tempoLoopLo (tempoLoopHi s).2).1.prod * (tempoLoopLo (tempoLoopHi s).2).2)
        = s := by
      rw [tempoLoopLo_prod]
      exact tempoLoopHi_prod s
    by_cases hne : (tempoLoopLo (tempoLoopHi s).2).2 ≠ 1
    · rw [if_pos hne]
      simpa [mul_assoc] using key
    · rw [if_neg hne]
      push_neg at hne
      rw [hne, mul_one] at key
      simpa [mul_assoc] using key

/-! ## One-step unfolding of `tempoChain`, matching the spec's phrasing -/

/-- When the speed exceeds 2, the chain starts with a ×2 step followed by
the chain of the halved speed. -/
theorem tempoChain_of_gt (s : ℚ) (h : 2 < s) : tempoChain s = 2 :: tempoChain (s / 2) := by
  have hne : s ≠ 1 := by intro e; rw [e] at h; norm_num at h
  have hgt1 : 1 < s / 2 := by linarith
  have hne2 : s / 2 ≠ 1 := by intro e; rw [e] at hgt1; norm_num at hgt1
  rw [tempoChain, if_pos hne, tempoChain, if_pos hne2]
  rw [tempoLoopHi, dif_pos h]
  simp

/-- When the positive speed is below 0.5, the chain starts with a ×0.5
step followed by the chain of the speed divided by 0.5. -/
theorem tempoChain_of_lt (s : ℚ) (h0 : 0 < s) (h : s < 1 / 2) :
    tempoChain s = (1 / 2 : ℚ) :: tempoChain (s / (1 / 2)) := by
  have hne : s ≠ 1 := by intro e; rw [e] at h; norm_num at h
  have h2s : s / (1 / 2) = 2 * s := by ring
  have hne2 : s / (1 / 2) ≠ 1 := by
    rw [h2s]; intro e; have : s = 1 / 2 := by linarith
    exact absurd (this ▸ h) (lt_irrefl _)
  have hlh : ¬ (2 : ℚ) < s := by linarith
  have hlh2 : ¬ (2 : ℚ) < s / (1 / 2) := by rw [h2s]; linarith
  rw [tempoChain, if_pos hne, tempoChain, if_pos hne2]
  rw [tempoLoopHi, dif_neg hlh, tempoLoopHi, dif_neg hlh2]
  simp only []
  rw [tempoLoopLo, dif_pos ⟨h0, h⟩]
  simp

/-- When the speed is already in [0.5, 2] and differs from 1, the chain is
the single step at that exact ratio. -/
theorem tempoChain_of_mid (s : ℚ) (h2 : ¬ 2 < s) (h0 : ¬ s < 1 / 2) (h1 : s ≠ 1) :
    tempoChain s = [s] := by
  rw [tempoChain, if_pos h1]
  rw [tempoLoopHi, dif_neg h2]
  simp only []
  rw [tempoLoopLo, dif_neg (by intro hc; exact h0 hc.2)]
  simp [h1]

/-- A speed of exactly 1 produces no tempo steps. -/
theorem tempoChain_one : tempoChain 1 = [] := by
  rw [tempoChain]
  simp

/-- The code's two sequential loops compute exactly the spec's interleaved
decomposition, for every positive speed. -/
theorem tempoChain_eq_specDecompose (s : ℚ) : 0 < s → tempoChain s = specDecompose s := by
  induction s using specDecompose.induct with
  | case1 s h ih =>
    intro hs
    rw [tempoChain_of_gt s h, specDecompose, dif_pos h, ih (by linarith)]
  | case2 s h2 h0 ih =>
    intro hs
    have hpos : 0 < s / (1 / 2) := by
      have : s / (1 / 2) = 2 * s := by ring
      rw [this]; linarith [h0.1]
    rw [tempoChain_of_lt s h0.1 h0.2, specDecompose, dif_neg h2, dif_pos h0, ih hpos]
  | case3 s h2 h0 h1 =>
    intro hs
    have hnl : ¬ s < 1 / 2 := fun hc => h0 ⟨hs, hc⟩
    rw [tempoChain_of_mid s h2 hnl h1, specDecompose, dif_neg h2, dif_neg h0, if_pos h1]
  | case4 s h2 h0 h1 =>
    intro hs
    have he : s = 1 := by
      by_contra hc
      exact h1 hc
    rw [he, tempoChain_one, specDecompose, dif_neg (by norm_num), dif_neg (by norm_num)]
    simp

/-- Concrete chain for speed 3: one ×2 step, then the final step at 1.5. -/
theorem tempoChain_three : tempoChain 3 = [2, 3 / 2] := by
  rw [tempoChain_of_gt 3 (by norm_num)]
  norm_num
  rw [tempoChain_of_mid (3 / 2) (by norm_num) (by norm_num) (by norm_num)]

/-- Concrete chain for speed 0.2: two ×0.5 steps, then the final step at
0.8 — dividing by 0.5 doubles the running ratio (0.2 → 0.4 → 0.8), so the
loop terminates with the leftover ratio 0.8 inside [0.5, 2]. -/
theorem tempoChain_fifth : tempoChain (1 / 5) = [1 / 2, 1 / 2, 4 / 5] := by
  rw [tempoChain_of_lt (1 / 5) (by norm_num) (by norm_num)]
  norm_num
  rw [tempoChain_of_lt (2 / 5) (by norm_num) (by norm_num)]
  norm_num
  rw [tempoChain_of_mid (4 / 5) (by norm_num) (by norm_num) (by norm_num)]

/-- C1: the Filter Planner's tempo decomposition follows the spec's
algorithm — for every positive speed the code's two sequential loops plus
final step produce exactly the spec's decomposition (×2 steps while the
ratio exceeds 2, ×0.5 steps while it is below 0.5 with the ratio divided
by 0.5 each time, one final step at the leftover ratio when it is not 1);
in particular speed 3.0 yields [×2, ×1.5] and speed 0.2 yields the ×0.5
steps followed by the 0.8 step that this decomposition produces. -/
theorem c1_tempo_decomposition_follows_spec :
    (∀ s : ℚ, 0 < s → tempoChain s = specTempoChain s)
      ∧ tempoChain 3 = [2, 3 / 2]
      ∧ tempoChain (1 / 5) = [1 / 2, 1 / 2, 4 / 5] := by
  refine ⟨?_, tempoChain_three, tempoChain_fifth⟩
  intro s hs
  by_cases h1 : s = 1
  · subst h1
    rw [tempoChain_one, specTempoChain]
    simp
  · rw [specTempoChain, if_pos h1]
    exact tempoChain_eq_specDecompose s hs

/-- Witness for C1 at the concrete speed 3. -/
theorem c1_witness : (0 : ℚ) < 3 ∧ tempoChain 3 = specTempoChain 3 :=
  ⟨by norm_num, c1_tempo_decomposition_follows_spec.1 3 (by norm_num)⟩

/-- C9: for every finite positive playback speed, every factor the
planner emits lies in [0.5, 2.0] and the product of all emitted factors
is exactly the requested speed. -/
theorem c9_tempo_chain_semantics :
    ∀ s : ℚ, 0 < s →
      (∀ f ∈ tempoChain s, 1 / 2 ≤ f ∧ f ≤ 2) ∧ (tempoChain s).prod = s :=
  fun s hs => ⟨tempoChain_factors s hs, tempoChain_prod s hs⟩

/-- Witness for C9 at the concrete speed 3. -/
theorem c9_witness :
    (0 : ℚ) < 3 ∧ ((∀ f ∈ tempoChain 3, 1 / 2 ≤ f ∧ f ≤ 2) ∧ (tempoChain 3).prod = 3) :=
  ⟨by norm_num, c9_tempo_chain_semantics 3 (by norm_num)⟩

/-! ## Algebra of `ℚ[x]/(x^12 - 2)` on monomials -/

/-- Product of two monomials: concatenate the exponents mod 12, with a
factor 2 when the exponent sum wraps past 12. -/
theorem r12Mul_mono (a b : ℚ) (i j : Fin 12) :
    r12Mul (r12Mono a i) (r12Mono b j)
      = r12Mono (a * b * (if (i : ℕ) + (j : ℕ) < 12 then 1 else 2)) (i + j) := by
  funext k
  simp only [r12Mul, r12Mono]
  rw [Finset.sum_eq_single i (fun i' _ hne => by simp [hne]) (by simp)]
  rw [if_pos rfl]
  by_cases hk : k = i + j
  · subst hk
    have hsub : i + j - i = j := by rw [add_comm]; exact add_sub_cancel_right j i
    rw [hsub, if_pos rfl, if_pos rfl]
    have hval : ((i + j : Fin 12) : ℕ) = ((i : ℕ) + (j : ℕ)) % 12 := Fin.val_add i j
    have hi := i.isLt
    have hj := j.isLt
    have hiff : ((i : ℕ) ≤ ((i + j : Fin 12) : ℕ)) ↔ ((i : ℕ) + (j : ℕ) < 12) := by
      rw [hval]
      constructor <;> intro h <;> omega
    simp only [hiff]
  · have hne : k - i ≠ j := by
      intro he
      apply hk
      rw [← he, add_comm, sub_add_cancel]
    rw [if_neg hne, if_neg hk, mul_zero, zero_mul]

/-- Power of a monomial: the base coefficient to the `n`, times the `2`s
accumulated from exponent wraparounds, at exponent `n*j mod 12`. -/
theorem r12Pow_mono (c : ℚ) (j : Fin 12) (n : ℕ) :
    r12Pow (r12Mono c j) n
      = r12Mono (c ^ n * 2 ^ ((n * (j : ℕ)) / 12))
          ⟨(n * (j : ℕ)) % 12, by have := j.isLt; omega⟩ := by
  induction n with
  | zero =>
    simp only [r12Pow, R12.ofRat]
    refine congr_arg₂ r12Mono ?_ ?_
    · norm_num
    · apply Fin.ext
      simp
  | succ n ih =>
    rw [r12Pow, ih, r12Mul_mono]
    have hj := j.isLt
    have hmul : (n + 1) * (j : ℕ) = n * (j : ℕ) + (j : ℕ) := by ring
    refine congr_arg₂ r12Mono ?_ ?_
    · by_cases hlt : (j : ℕ) + (⟨(n * (j : ℕ)) % 12, by omega⟩ : Fin 12).val < 12
      · rw [if_pos hlt]
        simp only at hlt
        have he : (n + 1) * (j : ℕ) / 12 = n * (j : ℕ) / 12 := by rw [hmul]; omega
        rw [he]
        ring
      · rw [if_neg hlt]
        simp only at hlt
        have he : (n + 1) * (j : ℕ) / 12 = n * (j : ℕ) / 12 + 1 := by rw [hmul]; omega
        rw [he, pow_succ]
        ring
    · apply Fin.ext
      rw [Fin.val_add]
      simp only [hmul]
      omega

/-- The stored pitch ratio really is the twelfth root of `2^p`: raising
`pow2div12 p` to the 12th power in `ℚ[x]/(x^12 - 2)` yields the rational
`2^p` — i.e. the ratio is exactly `2^(p/12)`. -/
theorem r12Pow_pow2div12 (p : ℤ) :
    r12Pow (pow2div12 p) 12 = R12.ofRat ((2 : ℚ) ^ p) := by
  rw [pow2div12, r12Pow_mono, R12.ofRat]
  have hm0 : 0 ≤ p % 12 := Int.emod_nonneg p (by norm_num)
  have hm : p % 12 < 12 := Int.emod_lt_of_pos p (by norm_num)
  refine congr_arg₂ r12Mono ?_ ?_
  · have ht : 12 * (p % 12).toNat / 12 = (p % 12).toNat := by omega
    simp only
    rw [ht]
    rw [← zpow_natCast ((2 : ℚ) ^ (p / 12)) 12, ← zpow_mul]
    rw [← zpow_natCast (2 : ℚ) (p % 12).toNat]
    rw [← zpow_add₀ (by norm_num : (2 : ℚ) ≠ 0)]
    congr 1
    rw [Int.toNat_of_nonneg hm0]
    omega
  · apply Fin.ext
    simp

/-- Tempo steps contain no pitch filter. -/
theorem filter_isPitch_map_atempo (l : List ℚ) :
    (l.map AudioFilter.atempo).filter isPitchFilter = [] := by
  induction l with
  | nil => rfl
  | cons x xs ih => simp [isPitchFilter, ih]

/-- C5: for every nonzero pitch shift the planner emits exactly one pitch
filter — the resample filter at base rate 44100 with ratio `2^(p/12)` —
and it precedes all tempo steps; the ratio construction is exact: its
12th power is the rational `2^p`, so `pitchShift = 12` gives ratio 2. -/
theorem c5_pitch_filter_first_exact_ratio :
    (∀ (p : ℤ) (s : ℚ), p ≠ 0 →
        audioFilters p s
            = AudioFilter.asetrateResample 44100 (pow2div12 p)
                :: (tempoChain s).map AudioFilter.atempo
          ∧ ((audioFilters p s).filter isPitchFilter).length = 1)
      ∧ pow2div12 12 = R12.ofRat 2
      ∧ (∀ p : ℤ, r12Pow (pow2div12 p) 12 = R12.ofRat ((2 : ℚ) ^ p)) := by
  refine ⟨?_, ?_, r12Pow_pow2div12⟩
  · intro p s hp
    have hchain : audioFilters p s
        = AudioFilter.asetrateResample 44100 (pow2div12 p)
            :: (tempoChain s).map AudioFilter.atempo := by
      rw [audioFilters, if_pos hp]
      simp
    refine ⟨hchain, ?_⟩
    rw [hchain]
    simp [List.filter_cons, isPitchFilter, filter_isPitch_map_atempo]
  · rw [pow2div12, R12.ofRat]
    have h1 : (12 : ℤ) / 12 = 1 := by decide
    have h2 : (12 : ℤ) % 12 = 0 := by decide
    refine congr_arg₂ r12Mono ?_ ?_
    · rw [h1, zpow_one]
    · apply Fin.ext
      simp [h2]

/-- Witness for C5 at pitch shift 12 and speed 1. -/
theorem c5_witness :
    (12 : ℤ) ≠ 0
      ∧ (audioFilters 12 1
            = AudioFilter.asetrateResample 44100 (pow2div12 12)
                :: (tempoChain 1).map AudioFilter.atempo
          ∧ ((audioFilters 12 1).filter isPitchFilter).length = 1) :=
  ⟨by norm_num, c5_pitch_filter_first_exact_ratio.1 12 1 (by norm_num)⟩

/-! ## Claims about the HTTP handlers -/

/-- C8: the reaper's sweep is idempotent — over an unchanged directory a
second run at the same instant keeps exactly the survivors of the first
and deletes nothing. -/
theorem c8_reaper_sweep_idempotent :
    ∀ (now : ℤ) (dir : List TempFile),
      sweepSurvivors now (sweepSurvivors now dir) = sweepSurvivors now dir
        ∧ sweepDeleted now (sweepSurvivors now dir) = [] := by
  intro now dir
  constructor
  · rw [sweepSurvivors, sweepSurvivors, List.filter_filter]
    congr 1
    funext f
    rw [Bool.and_self]
  · rw [sweepDeleted, sweepSurvivors, List.filter_filter]
    rw [List.filter_eq_nil_iff]
    intro f _
    cases h : decide (900000 < now - f.mtime) <;> simp [h]

/-- C7: an id failing the 11-character token pattern is answered 400 by
both endpoints with no external call made. -/
theorem c7_invalid_id_rejected_before_remote_call :
    ∀ vid : String, validVideoId vid = false →
      (∀ remote : InfoOutcome,
          (videoInfoHandler vid remote).status = 400
            ∧ (videoInfoHandler vid remote).calls = [])
        ∧ (∀ (p s : JsVal) (o : PAOracle),
            (runProcessAudio vid p s o).responses = [400]
              ∧ (runProcessAudio vid p s o).calls = []) := by
  intro vid h
  constructor
  · intro remote
    rw [videoInfoHandler.eq_def, if_pos (by simp [h])]
    exact ⟨rfl, rfl⟩
  · intro p s o
    rw [runProcessAudio.eq_def, if_pos (by simp [h])]
    exact ⟨rfl, rfl⟩

/-- Witness for C7 at the malformed id `"short"`. -/
theorem c7_witness :
    validVideoId "short" = false
      ∧ (videoInfoHandler "short" (.ok 100)).status = 400
      ∧ (runProcessAudio "short" (.num 0) (.num 1)
            ⟨"sid", .ok, .ok, .ended, false⟩).responses = [400] := by
  have h : validVideoId "short" = false := by rfl
  exact ⟨h,
    ((c7_invalid_id_rejected_before_remote_call "short" h).1 (.ok 100)).1,
    ((c7_invalid_id_rejected_before_remote_call "short" h).2 (.num 0) (.num 1) _).1⟩

/-- C2 as stated fails on the code: a valid id whose video is 700 seconds
long is answered 400, but the `getInfo` external call has already been
made when that 400 is produced — the duration is only known from it. -/
theorem c2_counterexample_remote_call_before_400 :
    (videoInfoHandler "aaaaaaaaaaa" (.ok 700)).status = 400
      ∧ (videoInfoHandler "aaaaaaaaaaa" (.ok 700)).calls ≠ [] := by
  have hv : validVideoId "aaaaaaaaaaa" = true := by rfl
  rw [videoInfoHandler.eq_def, if_neg (by simp [hv])]
  norm_num

/-- C2 (amended): a too-long duration on a well-formed id is answered
400, but only after exactly one external call — the metadata fetch that
reveals the duration. -/
theorem c2_too_long_400_after_one_call :
    ∀ (vid : String) (len : ℤ), validVideoId vid = true → 600 < len →
      videoInfoHandler vid (.ok len) = ⟨400, [.getInfo]⟩ := by
  intro vid len hv hl
  rw [videoInfoHandler.eq_def, if_neg (by simp [hv])]
  simp [hl]

/-- Witness for the amended C2 at a 700-second video. -/
theorem c2_witness :
    validVideoId "aaaaaaaaaaa" = true ∧ (600 : ℤ) < 700
      ∧ videoInfoHandler "aaaaaaaaaaa" (.ok 700) = ⟨400, [.getInfo]⟩ :=
  ⟨by rfl, by norm_num,
    c2_too_long_400_after_one_call "aaaaaaaaaaa" 700 (by rfl) (by norm_num)⟩

/-- C3 as stated fails on the code: on the success path, deletion of the
two temp files is scheduled only by the output stream's `'end'` handler,
so a mid-stream read error leaves both files on disk after the grace
delay (until the reaper ages them out). -/
theorem c3_counterexample_stream_error_keeps_files :
    (runProcessAudio "aaaaaaaaaaa" (.num 0) (.num 1)
        ⟨"sid", .ok, .ok, .errored, false⟩).diskAfterGrace
      = [inputPathOf "sid", outputPathOf "sid"] := by
  have hv : validVideoId "aaaaaaaaaaa" = true := by rfl
  have h1 : jsLtQ (.num 0) (-12) = false := by norm_num [jsLtQ, jsToNum]
  have h2 : jsGtQ (.num 0) 12 = false := by norm_num [jsGtQ, jsToNum]
  have h3 : jsLtQ (.num 1) 0.25 = false := by norm_num [jsLtQ, jsToNum]
  have h4 : jsGtQ (.num 1) 2 = false := by norm_num [jsGtQ, jsToNum]
  rw [runProcessAudio.eq_def]
  simp [hv, h1, h2, h3, h4]

/-- C3 (amended): on every exit path of the orchestrator except a
mid-stream error of the successful output stream, neither temp file
remains on disk once the grace delay has elapsed. -/
theorem c3_cleanup_on_all_paths_except_stream_error :
    ∀ (vid : String) (p s : JsVal) (o : PAOracle),
      ¬(o.fetch = .ok ∧ o.transform = .ok ∧ o.deadlineFired = false
          ∧ o.stream = .errored) →
      (runProcessAudio vid p s o).diskAfterGrace = [] := by
  intro vid p s o h
  rcases o with ⟨sid, f, t, st, dl⟩
  rw [runProcessAudio.eq_def]
  cases f <;> cases t <;> cases st <;> cases dl <;> split_ifs <;> simp_all

/-- Witness for the amended C3: a failed fetch leaves no file behind. -/
theorem c3_witness :
    ¬((PAOracle.mk "sid" (.err "Download timeout" true) .ok .ended false).fetch = .ok
        ∧ (PAOracle.mk "sid" (.err "Download timeout" true) .ok .ended false).transform = .ok
        ∧ (PAOracle.mk "sid" (.err "Download timeout" true) .ok .ended false).deadlineFired = false
        ∧ (PAOracle.mk "sid" (.err "Download timeout" true) .ok .ended false).stream = .errored)
      ∧ (runProcessAudio "aaaaaaaaaaa" (.num 0) (.num 1)
            ⟨"sid", .err "Download timeout" true, .ok, .ended, false⟩).diskAfterGrace = [] :=
  ⟨by simp,
    c3_cleanup_on_all_paths_except_stream_error "aaaaaaaaaaa" (.num 0) (.num 1)
      ⟨"sid", .err "Download timeout" true, .ok, .ended, false⟩ (by simp)⟩

/-- C4: a numeric pitch shift outside [-12, 12] or speed outside
[0.25, 2.0] is answered 400 with no temp file created and no external
call made — the request never reaches the fetch adapter. -/
theorem c4_out_of_range_rejected_without_effects :
    ∀ (vid : String) (p s : ℚ) (o : PAOracle),
      (p < -12 ∨ 12 < p ∨ s < 0.25 ∨ 2 < s) →
      runProcessAudio vid (.num p) (.num s) o = ⟨[400], [], [], []⟩ := by
  intro vid p s o h
  rw [runProcessAudio.eq_def]
  by_cases hv : validVideoId vid = true
  · by_cases hp : (jsLtQ (.num p) (-12) || jsGtQ (.num p) 12) = true
    · simp [hv, hp]
    · have hps : ¬ p < -12 ∧ ¬ 12 < p := by
        simpa [jsLtQ, jsGtQ, jsToNum] using hp
      have hs : (jsLtQ (.num s) 0.25 || jsGtQ (.num s) 2) = true := by
        simp only [jsLtQ, jsGtQ, jsToNum]
        rcases h with h' | h' | h' | h'
        · exact absurd h' hps.1
        · exact absurd h' hps.2
        · simp [h']
        · simp [h']
      simp [hv, hp, hs]
  · simp [hv]

/-- Witness for C4 at pitch shift 13. -/
theorem c4_witness :
    ((13 : ℚ) < -12 ∨ (12 : ℚ) < 13 ∨ (1 : ℚ) < 0.25 ∨ (2 : ℚ) < 1)
      ∧ runProcessAudio "aaaaaaaaaaa" (.num 13) (.num 1)
          ⟨"sid", .ok, .ok, .ended, false⟩ = ⟨[400], [], [], []⟩ :=
  ⟨by norm_num,
    c4_out_of_range_rejected_without_effects "aaaaaaaaaaa" 13 1
      ⟨"sid", .ok, .ok, .ended, false⟩ (by norm_num)⟩

/-- C6: in every execution at most one response status is sent, and when
the whole-request deadline fires on a validated request — the only
situation in which its guarded callback responds — the 408 it sends is
the one and only response, however the race with an adapter failure or
the success path resolves. -/
theorem c6_single_response_and_deadline_guard :
    ∀ (vid : String) (p s : JsVal) (o : PAOracle),
      (runProcessAudio vid p s o).responses.length ≤ 1
        ∧ (paValidationPasses vid p s = true → o.deadlineFired = true →
            (runProcessAudio vid p s o).responses = [408]) := by
  intro vid p s o
  rcases o with ⟨sid, f, t, st, dl⟩
  rw [runProcessAudio.eq_def]
  by_cases hv : validVideoId vid = true <;>
    by_cases hp : (jsLtQ p (-12) || jsGtQ p 12) = true <;>
      by_cases hs : (jsLtQ s 0.25 || jsGtQ s 2) = true <;>
        cases f <;> cases t <;> cases st <;> cases dl <;>
          simp_all [paValidationPasses]

/-- Witness for C6: the deadline firing against a successful pipeline
yields exactly the one 408 response. -/
theorem c6_witness :
    (runProcessAudio "aaaaaaaaaaa" (.num 0) (.num 1)
        ⟨"sid", .ok, .ok, .ended, true⟩).responses = [408] := by
  have hv : validVideoId "aaaaaaaaaaa" = true := by rfl
  exact (c6_single_response_and_deadline_guard "aaaaaaaaaaa" (.num 0) (.num 1)
      ⟨"sid", .ok, .ok, .ended, true⟩).2
    (by norm_num [paValidationPasses, hv, jsLtQ, jsGtQ, jsToNum]) rfl

/-- C10: the range validation does not reject non-numeric values — for
the string `'loud'` as the pitch shift both range comparisons are false,
so the request passes validation, creates its session files and reaches
the fetch adapter (and on a successful pipeline streams a 200) instead
of being answered 400. -/
theorem c10_non_numeric_param_passes_validation :
    jsLtQ (.str "loud") (-12) = false
      ∧ jsGtQ (.str "loud") 12 = false
      ∧ (runProcessAudio "aaaaaaaaaaa" (.str "loud") (.num 1)
            ⟨"sid", .ok, .ok, .ended, false⟩).calls = [.fetchAudio, .runFFmpeg]
      ∧ (runProcessAudio "aaaaaaaaaaa" (.str "loud") (.num 1)
            ⟨"sid", .ok, .ok, .ended, false⟩).filesCreated
          = [inputPathOf "sid", outputPathOf "sid"]
      ∧ (runProcessAudio "aaaaaaaaaaa" (.str "loud") (.num 1)
            ⟨"sid", .ok, .ok, .ended, false⟩).responses = [200] := by
  have hv : validVideoId "aaaaaaaaaaa" = true := by rfl
  have h1 : jsLtQ (.str "loud") (-12) = false := by rfl
  have h2 : jsGtQ (.str "loud") 12 = false := by rfl
  have h3 : jsLtQ (.num 1) 0.25 = false := by norm_num [jsLtQ, jsToNum]
  have h4 : jsGtQ (.num 1) 2 = false := by norm_num [jsGtQ, jsToNum]
  refine ⟨h1, h2, ?_⟩
  rw [runProcessAudio.eq_def]
  simp [hv, h1, h2, h3, h4]
